import Mathlib

/-!
Verification of the configuration-derivation core of
`src/solver/factorio_solver.py`.

The Python source is embedded shallowly:

* Python `dict` literals for input specifications become the `InputSpec`
  structure; the assembled configuration dict becomes `Configuration`.
* Python `float` costs are modelled as rationals (`ℚ`); `float(...)`
  string parsing is modelled by `pyFloat?` on plain decimal literals.
* Python exceptions (`ValueError` from unpacking/`float`, `KeyError`
  from the research-table lookup, `IndexError` from the plant lookup)
  become an `Except SolverError` result.
* The module-level `FACTORIO_DATA` JSON value is an external dataset;
  it is modelled by the `GameDataset` structure and passed explicitly.
-/

/-- Numeric value of a list of decimal digit characters. -/
def digitsVal (cs : List Char) : Nat :=
  cs.foldl (fun acc c => 10 * acc + (c.toNat - Char.toNat '0')) 0

/-- Unsigned part of Python `float(...)` on decimal literals:
an optional integer part, optionally followed by `.` and a fraction,
with at least one digit overall. -/
def pyFloatCore (cs : List Char) : Option ℚ :=
  let intPart := cs.takeWhile Char.isDigit
  let rest := cs.dropWhile Char.isDigit
  match rest with
  | [] => if intPart = [] then none else some (mkRat (digitsVal intPart) 1)
  | '.' :: frac =>
      if frac.all Char.isDigit ∧ (intPart ≠ [] ∨ frac ≠ []) then
        some (mkRat (digitsVal intPart * 10 ^ frac.length + digitsVal frac) (10 ^ frac.length))
      else none
  | _ => none

/-- Model of Python `float(s)` on the plain decimal-literal fragment
(optional sign, digits, optional decimal point); exotic forms accepted
by CPython (exponents, `inf`, `nan`, underscores, surrounding
whitespace) are outside the modelled fragment and map to `none`. -/
def pyFloat? (s : String) : Option ℚ :=
  match s.data with
  | '-' :: cs => (pyFloatCore cs).map (fun q => -q)
  | '+' :: cs => pyFloatCore cs
  | cs => pyFloatCore cs

/-- Split a character list at every occurrence of `c`, keeping empty
pieces, as Python `str.split` does with an explicit separator. -/
def splitChar (c : Char) : List Char → List (List Char)
  | [] => [[]]
  | x :: xs =>
    match splitChar c xs with
    | [] => if x = c then [[], [x]] else [[x]]
    | y :: ys => if x = c then [] :: y :: ys else (x :: y) :: ys

/-- Model of Python `s.split('=')`: pieces between occurrences of `=`,
empty pieces preserved, `[s]` when there is no separator. -/
def pySplitOnEq (s : String) : List String :=
  (splitChar '=' s.data).map (fun cs => String.mk cs)

instance exceptDecEq {ε α : Type} [DecidableEq ε] [DecidableEq α] :
    DecidableEq (Except ε α)
  | .ok a, .ok b => decidable_of_iff (a = b) (by simp)
  | .ok _, .error _ => .isFalse (by simp)
  | .error _, .ok _ => .isFalse (by simp)
  | .error e, .error f => decidable_of_iff (e = f) (by simp)

/-- One raw-material input handed to the solver: the Python dict
`{'key': .., 'quality': .., 'resource': .., 'cost': ..}`. -/
structure InputSpec where
  key : String
  quality : String
  resource : Bool
  cost : ℚ
deriving DecidableEq

/-- The single output target: `{'key': .., 'quality': .., 'amount': ..}`. -/
structure OutputSpec where
  key : String
  quality : String
  amount : ℚ
deriving DecidableEq

/-- The exceptions the core can raise: `ValueError` from tuple
unpacking of `split('=')` or from `float(...)` (`formatError`),
`KeyError` from `RESEARCH_PRODUCTIVITY_ITEM_RECIPE_MAP[...]`
(`unknownResearchKey`), and `IndexError` from the `[0]` plant lookup
in `setup_inputs` (`plantNotFound`). -/
inductive SolverError where
  | formatError (token : String)
  | unknownResearchKey (key : String)
  | plantNotFound (key : String)
deriving DecidableEq

/-- `parse_input_list` (factorio_solver.py lines 82-94): each token is
unpacked as `item_key, item_cost_str = item.split('=')` (failing unless
the split yields exactly two pieces, i.e. the token has exactly one
`=`), the cost is parsed as a number, and the entry
`{key, quality: input_quality, resource: False, cost}` is appended. -/
def parse_input_list (items : List String) (input_quality : String) :
    Except SolverError (List InputSpec) :=
  match items with
  | [] => .ok []
  | item :: rest =>
    match pySplitOnEq item with
    | [item_key, item_cost_str] =>
      match pyFloat? item_cost_str with
      | some item_cost =>
        match parse_input_list rest input_quality with
        | .ok l => .ok (⟨item_key, input_quality, false, item_cost⟩ :: l)
        | .error e => .error e
      | none => .error (.formatError item)
    | _ => .error (.formatError item)

/-- `parse_resources_list` (lines 96-108): identical tokenisation, but
every entry gets `quality: 'normal'` and `resource: True`. -/
def parse_resources_list (items : List String) :
    Except SolverError (List InputSpec) :=
  match items with
  | [] => .ok []
  | item :: rest =>
    match pySplitOnEq item with
    | [item_key, item_cost_str] =>
      match pyFloat? item_cost_str with
      | some item_cost =>
        match parse_resources_list rest with
        | .ok l => .ok (⟨item_key, "normal", true, item_cost⟩ :: l)
        | .error e => .error e
      | none => .error (.formatError item)
    | _ => .error (.formatError item)

/-- A token is well formed when it splits into exactly two pieces on
`=` and its cost piece parses as a number. -/
def goodToken (tok : String) : Bool :=
  match pySplitOnEq tok with
  | [_, c] => (pyFloat? c).isSome
  | _ => false

-- Shared characterisation lemmas for the two manual-input parsers.

theorem parse_input_list_ok_iff (items : List String) (q : String) :
    (∃ l, parse_input_list items q = .ok l) ↔ ∀ tok ∈ items, goodToken tok = true := by
  induction items with
  | nil => simp [parse_input_list]
  | cons item rest ih =>
    rw [List.forall_mem_cons, ← ih]
    cases hsp : pySplitOnEq item with
    | nil => simp [parse_input_list, goodToken, hsp]
    | cons a tl =>
      cases tl with
      | nil => simp [parse_input_list, goodToken, hsp]
      | cons b tl2 =>
        cases tl2 with
        | nil =>
          cases hc : pyFloat? b with
          | none => simp [parse_input_list, goodToken, hsp, hc]
          | some v =>
            cases hr : parse_input_list rest q with
            | ok l' => simp [parse_input_list, goodToken, hsp, hc, hr]
            | error e => simp [parse_input_list, goodToken, hsp, hc, hr]
        | cons c tl3 => simp [parse_input_list, goodToken, hsp]

/-- Relation between one token and the entry the item variant produces
for it: the token has exactly one `=`, the cost piece parses, and the
entry carries the caller-supplied quality and `resource = false`. -/
def itemTokenSpec (q : String) (tok : String) (spec : InputSpec) : Prop :=
  ∃ k c v, pySplitOnEq tok = [k, c] ∧ pyFloat? c = some v ∧
    spec = ⟨k, q, false, v⟩

/-- Relation between one token and the entry the resource variant
produces for it: quality is always `"normal"` and `resource = true`. -/
def resourceTokenSpec (tok : String) (spec : InputSpec) : Prop :=
  ∃ k c v, pySplitOnEq tok = [k, c] ∧ pyFloat? c = some v ∧
    spec = ⟨k, "normal", true, v⟩

theorem except_error_iff_not_ok {ε α : Type} (x : Except ε α) :
    (∃ e, x = .error e) ↔ ¬ ∃ a, x = .ok a := by
  cases x <;> simp

theorem parse_input_list_ok_forall₂ (items : List String) (q : String)
    (l : List InputSpec) (h : parse_input_list items q = .ok l) :
    List.Forall₂ (itemTokenSpec q) items l := by
  induction items generalizing l with
  | nil =>
    simp only [parse_input_list, Except.ok.injEq] at h
    subst h
    exact List.Forall₂.nil
  | cons item rest ih =>
    revert h
    cases hsp : pySplitOnEq item with
    | nil => simp [parse_input_list, hsp]
    | cons a tl =>
      cases tl with
      | nil => simp [parse_input_list, hsp]
      | cons b tl2 =>
        cases tl2 with
        | nil =>
          cases hc : pyFloat? b with
          | none => simp [parse_input_list, hsp, hc]
          | some v =>
            cases hr : parse_input_list rest q with
            | ok l' =>
              intro h
              simp only [parse_input_list, hsp, hc, hr, Except.ok.injEq] at h
              subst h
              exact List.Forall₂.cons ⟨a, b, v, hsp, hc, rfl⟩ (ih l' hr)
            | error e => simp [parse_input_list, hsp, hc, hr]
        | cons c tl3 => simp [parse_input_list, hsp]

theorem parse_resources_list_ok_iff (items : List String) :
    (∃ l, parse_resources_list items = .ok l) ↔ ∀ tok ∈ items, goodToken tok = true := by
  induction items with
  | nil => simp [parse_resources_list]
  | cons item rest ih =>
    rw [List.forall_mem_cons, ← ih]
    cases hsp : pySplitOnEq item with
    | nil => simp [parse_resources_list, goodToken, hsp]
    | cons a tl =>
      cases tl with
      | nil => simp [parse_resources_list, goodToken, hsp]
      | cons b tl2 =>
        cases tl2 with
        | nil =>
          cases hc : pyFloat? b with
          | none => simp [parse_resources_list, goodToken, hsp, hc]
          | some v =>
            cases hr : parse_resources_list rest with
            | ok l' => simp [parse_resources_list, goodToken, hsp, hc, hr]
            | error e => simp [parse_resources_list, goodToken, hsp, hc, hr]
        | cons c tl3 => simp [parse_resources_list, goodToken, hsp]

theorem parse_resources_list_ok_forall₂ (items : List String)
    (l : List InputSpec) (h : parse_resources_list items = .ok l) :
    List.Forall₂ resourceTokenSpec items l := by
  induction items generalizing l with
  | nil =>
    simp only [parse_resources_list, Except.ok.injEq] at h
    subst h
    exact List.Forall₂.nil
  | cons item rest ih =>
    revert h
    cases hsp : pySplitOnEq item with
    | nil => simp [parse_resources_list, hsp]
    | cons a tl =>
      cases tl with
      | nil => simp [parse_resources_list, hsp]
      | cons b tl2 =>
        cases tl2 with
        | nil =>
          cases hc : pyFloat? b with
          | none => simp [parse_resources_list, hsp, hc]
          | some v =>
            cases hr : parse_resources_list rest with
            | ok l' =>
              intro h
              simp only [parse_resources_list, hsp, hc, hr, Except.ok.injEq] at h
              subst h
              exact List.Forall₂.cons ⟨a, b, v, hsp, hc, rfl⟩ (ih l' hr)
            | error e => simp [parse_resources_list, hsp, hc, hr]
        | cons c tl3 => simp [parse_resources_list, hsp]

/-- The fixed table `RESEARCH_PRODUCTIVITY_ITEM_RECIPE_MAP`
(lines 37-47): item key to the recipe keys its research affects. -/
def RESEARCH_PRODUCTIVITY_ITEM_RECIPE_MAP : List (String × List String) :=
  [("steel-plate", ["steel-plate", "casting-steel"]),
   ("low-density-structure",
      ["low-density-structure", "casting-low-density-structure"]),
   ("scrap", ["scrap-recycling"]),
   ("processing-unit", ["processing-unit"]),
   ("plastic-bar", ["plastic-bar"]),
   ("rocket-fuel", ["rocket-fuel", "rocket-fuel-from-jelly", "ammonia-rocket-fuel"]),
   ("asteroid",
      ["carbonic-asteroid-crushing", "metallic-asteroid-crushing",
       "oxide-asteroid-crushing", "advanced-carbonic-asteroid-crushing",
       "advanced-metallic-asteroid-crushing", "advanced-oxide-asteroid-crushing"])]

/-- `RESEARCH_PRODUCTIVITY_ITEM_RECIPE_MAP[item_key]`, with `none` for
the `KeyError` case. -/
def researchLookup (k : String) : Option (List String) :=
  (RESEARCH_PRODUCTIVITY_ITEM_RECIPE_MAP.find? (fun p => p.1 = k)).map Prod.snd

/-- The `productivity_research` Python dict: an insertion-ordered
association list with at most one entry per key. -/
abbrev ResearchDict := List (String × ℚ)

/-- Python dict assignment `d[k] = v`: replace the value in place when
the key is present, append a new entry otherwise. -/
def dictInsert : ResearchDict → String → ℚ → ResearchDict
  | [], k, v => [(k, v)]
  | (k', v') :: rest, k, v =>
    if k' = k then (k, v) :: rest else (k', v') :: dictInsert rest k v

/-- Python dict lookup `d[k]` as an `Option`. -/
def dictLookup (k : String) : ResearchDict → Option ℚ
  | [] => none
  | (k', v) :: rest => if k' = k then some v else dictLookup k rest

/-- The inner loop of `parse_productivity_research_list`
(lines 115-117): for every affected recipe key, convert the level
string with `float` and assign it; note the conversion sits inside the
loop, so an unconvertible level only raises when the recipe list is
non-empty, exactly as in the source. -/
def research_inner : List String → String → ResearchDict →
    Except SolverError ResearchDict
  | [], _, d => .ok d
  | recipe_key :: rest, item_prod_str, d =>
    match pyFloat? item_prod_str with
    | some item_prod => research_inner rest item_prod_str (dictInsert d recipe_key item_prod)
    | none => .error (.formatError item_prod_str)

/-- The outer loop of `parse_productivity_research_list`
(lines 112-117): unpack `item_key, item_prod_str = item.split('=')`,
look the item key up in the fixed table (`KeyError` when absent), then
run the inner loop. -/
def research_loop : List String → ResearchDict → Except SolverError ResearchDict
  | [], d => .ok d
  | item :: rest, d =>
    match pySplitOnEq item with
    | [item_key, item_prod_str] =>
      match researchLookup item_key with
      | some recipe_keys =>
        match research_inner recipe_keys item_prod_str d with
        | .ok d' => research_loop rest d'
        | .error e => .error e
      | none => .error (.unknownResearchKey item_key)
    | _ => .error (.formatError item)

/-- `parse_productivity_research_list` (lines 110-118). -/
def parse_productivity_research_list (items : List String) :
    Except SolverError ResearchDict :=
  research_loop items []

/-- A research token processes without an exception: it splits into
exactly two pieces, its item key is in the fixed table, and (when the
affected recipe list is non-empty) its level parses as a number. -/
def researchTokenOk (tok : String) : Bool :=
  match pySplitOnEq tok with
  | [k, vs] =>
    match researchLookup k with
    | some recipe_keys => recipe_keys.isEmpty || (pyFloat? vs).isSome
    | none => false
  | _ => false

/-- Effect of one research token on the level recorded for recipe `r`:
a well-formed token whose item maps to a recipe list containing `r`
overwrites the level, any other token leaves it unchanged. -/
def researchStep (r : String) (acc : Option ℚ) (tok : String) : Option ℚ :=
  match pySplitOnEq tok with
  | [k, vs] =>
    match researchLookup k, pyFloat? vs with
    | some recipe_keys, some v => if r ∈ recipe_keys then some v else acc
    | _, _ => acc
  | _ => acc

/-- Intended mapping, read off the spec: the level recorded for recipe
`r` is the level of the last token in iteration order whose matched
recipe-key list contains `r` (later tokens overwrite earlier ones). -/
def researchLevelSpec (items : List String) (r : String) : Option ℚ :=
  items.foldl (researchStep r) none

-- Lemmas about the Python-dict model.

theorem dictLookup_insert (d : ResearchDict) (k r : String) (v : ℚ) :
    dictLookup r (dictInsert d k v) = if k = r then some v else dictLookup r d := by
  induction d with
  | nil =>
    by_cases hkr : k = r <;> simp [dictInsert, dictLookup, hkr]
  | cons p rest ih =>
    obtain ⟨k', v'⟩ := p
    by_cases hk : k' = k
    · by_cases hkr : k = r <;> simp [dictInsert, dictLookup, hk, hkr]
    · by_cases hk'r : k' = r
      · have hkr : ¬ k = r := fun h => hk (hk'r.trans h.symm)
        have hrk : ¬ r = k := fun h => hk (hk'r.trans h)
        simp [dictInsert, dictLookup, hk, hk'r, hkr, hrk]
      · simp [dictInsert, dictLookup, hk, hk'r, ih]

theorem dictLookup_foldl_insert (rks : List String) (v : ℚ) (d : ResearchDict)
    (r : String) :
    dictLookup r (rks.foldl (fun d rk => dictInsert d rk v) d) =
      if r ∈ rks then some v else dictLookup r d := by
  induction rks generalizing d with
  | nil => simp
  | cons rk rest ih =>
    rw [List.foldl_cons, ih, dictLookup_insert]
    by_cases hrest : r ∈ rest
    · simp [hrest]
    · by_cases hk : rk = r
      · simp [hk, hrest]
      · have : ¬ r ∈ rk :: rest := by
          simp [List.mem_cons, hrest]
          intro h
          exact hk h.symm
        simp [hk, hrest, this]

-- Lemmas about the research-expansion loops.

theorem research_inner_ok_of_float (rks : List String) (vs : String) (v : ℚ)
    (hv : pyFloat? vs = some v) (d : ResearchDict) :
    research_inner rks vs d = .ok (rks.foldl (fun d rk => dictInsert d rk v) d) := by
  induction rks generalizing d with
  | nil => rfl
  | cons rk rest ih => simp [research_inner, hv, ih, List.foldl_cons]

theorem research_inner_ok_exists (rks : List String) (vs : String)
    (h : (rks.isEmpty || (pyFloat? vs).isSome) = true) (d : ResearchDict) :
    ∃ d', research_inner rks vs d = .ok d' := by
  cases rks with
  | nil => exact ⟨d, rfl⟩
  | cons rk rest =>
    simp only [List.isEmpty_cons, Bool.false_or] at h
    obtain ⟨v, hv⟩ := Option.isSome_iff_exists.mp h
    exact ⟨_, research_inner_ok_of_float (rk :: rest) vs v hv d⟩

theorem research_inner_lookup (rks : List String) (vs : String) (d d1 : ResearchDict)
    (h : research_inner rks vs d = .ok d1) (r : String) :
    dictLookup r d1 =
      match pyFloat? vs with
      | some v => if r ∈ rks then some v else dictLookup r d
      | none => dictLookup r d := by
  cases hv : pyFloat? vs with
  | some v =>
    rw [research_inner_ok_of_float rks vs v hv d] at h
    cases h
    simp only [dictLookup_foldl_insert]
  | none =>
    cases rks with
    | nil =>
      cases h
      rfl
    | cons rk rest => simp [research_inner, hv] at h

theorem research_loop_lookup (items : List String) (d0 d : ResearchDict)
    (h : research_loop items d0 = .ok d) (r : String) :
    dictLookup r d = items.foldl (researchStep r) (dictLookup r d0) := by
  induction items generalizing d0 with
  | nil =>
    cases h
    rfl
  | cons tok rest ih =>
    simp only [research_loop] at h
    revert h
    cases hsp : pySplitOnEq tok with
    | nil => simp
    | cons a tl =>
      cases tl with
      | nil => simp
      | cons b tl2 =>
        cases tl2 with
        | nil =>
          cases hlk : researchLookup a with
          | none => simp [hlk]
          | some recipe_keys =>
            cases hin : research_inner recipe_keys b d0 with
            | error e => simp [hlk, hin]
            | ok d1 =>
              intro h
              simp only [hlk, hin] at h
              rw [List.foldl_cons]
              have hstep : researchStep r (dictLookup r d0) tok = dictLookup r d1 := by
                have hrl := research_inner_lookup recipe_keys b d0 d1 hin r
                rw [researchStep]
                simp only [hsp, hlk]
                cases hv : pyFloat? b with
                | some v =>
                  simp only [hv] at hrl
                  simp only [hrl]
                | none =>
                  simp only [hv] at hrl
                  simp only [hrl]
              rw [hstep]
              exact ih d1 h
        | cons c tl3 => simp

theorem researchTokenOk_elim (t : String) (h : researchTokenOk t = true) :
    ∃ a b rks, pySplitOnEq t = [a, b] ∧ researchLookup a = some rks ∧
      (rks.isEmpty || (pyFloat? b).isSome) = true := by
  revert h
  unfold researchTokenOk
  cases hsp : pySplitOnEq t with
  | nil => simp
  | cons a tl =>
    cases tl with
    | nil => simp
    | cons b tl2 =>
      cases tl2 with
      | nil =>
        cases hlk : researchLookup a with
        | none => simp [hlk]
        | some rks =>
          intro h
          simp only [hlk] at h
          exact ⟨a, b, rks, rfl, hlk, h⟩
      | cons c tl3 => simp

theorem research_loop_ok_key_known (items : List String) (d0 d : ResearchDict)
    (h : research_loop items d0 = .ok d) :
    ∀ tok ∈ items, ∀ k vs, pySplitOnEq tok = [k, vs] →
      (researchLookup k).isSome = true := by
  induction items generalizing d0 with
  | nil => simp
  | cons tok rest ih =>
    simp only [research_loop] at h
    revert h
    cases hsp : pySplitOnEq tok with
    | nil => simp
    | cons a tl =>
      cases tl with
      | nil => simp
      | cons b tl2 =>
        cases tl2 with
        | nil =>
          cases hlk : researchLookup a with
          | none => simp [hlk]
          | some recipe_keys =>
            cases hin : research_inner recipe_keys b d0 with
            | error e => simp [hlk, hin]
            | ok d1 =>
              intro h
              simp only [hlk, hin] at h
              intro tok' htok' k vs hsp'
              rcases List.mem_cons.mp htok' with rfl | hmem
              · have heq := hsp'.symm.trans hsp
                simp only [List.cons.injEq, and_true] at heq
                rw [heq.1, hlk]
                rfl
              · exact ih d1 h tok' hmem k vs hsp'
        | cons c tl3 => simp

theorem research_loop_unknown_key_aborts (tok k vs : String)
    (hsp : pySplitOnEq tok = [k, vs]) (hk : researchLookup k = none) :
    ∀ (pre post : List String) (d0 : ResearchDict),
      (∀ t ∈ pre, researchTokenOk t = true) →
      research_loop (pre ++ tok :: post) d0 = .error (.unknownResearchKey k) := by
  intro pre
  induction pre with
  | nil =>
    intro post d0 _
    simp only [List.nil_append, research_loop, hsp, hk]
  | cons t pre' ih =>
    intro post d0 hpre
    obtain ⟨a, b, rks, hsp', hlk, hok⟩ := researchTokenOk_elim t (hpre t (by simp))
    obtain ⟨d1, hd1⟩ := research_inner_ok_exists rks b hok d0
    rw [List.cons_append]
    simp only [research_loop, hsp', hlk, hd1]
    exact ih post d1 (fun t' ht' => hpre t' (List.mem_cons_of_mem t ht'))

/-- One harvest product of a plant: the `{'name': ..}` entries of a
plant's `results` list (other JSON fields are not read by the core). -/
structure PlantResult where
  name : String
deriving DecidableEq

/-- One entry of `FACTORIO_DATA['plants']`. -/
structure Plant where
  key : String
  results : List PlantResult
deriving DecidableEq

/-- The `resources` record of one planet: `offshore`, `plants` and
`resource` key lists. -/
structure PlanetResources where
  offshore : List String
  plants : List String
  resource : List String
deriving DecidableEq

/-- One entry of `FACTORIO_DATA['planets']`. -/
structure Planet where
  resources : PlanetResources
deriving DecidableEq

/-- The slice of the immutable `FACTORIO_DATA` dataset the core reads. -/
structure GameDataset where
  planets : List Planet
  plants : List Plant
deriving DecidableEq

/-- `[p for p in FACTORIO_DATA['plants'] if p['key']==plant][0]`
(line 62): the first plant with the given key; `none` models the
`IndexError` when no plant matches. -/
def findPlant (allPlants : List Plant) (key : String) : Option Plant :=
  allPlants.find? (fun p => p.key = key)

/-- The plant loop of `setup_inputs` (lines 61-71): for each plant key
harvestable on the planet, look the plant up and append one entry per
result item with the farming cost. -/
def plants_loop (allPlants : List Plant) (farming_cost : ℚ) :
    List String → List InputSpec → Except SolverError (List InputSpec)
  | [], inputs => .ok inputs
  | plant :: rest, inputs =>
    match findPlant allPlants plant with
    | some plant_info =>
        plants_loop allPlants farming_cost rest
          (inputs ++ plant_info.results.map (fun r => ⟨r.name, "normal", false, farming_cost⟩))
    | none => .error (.plantNotFound plant)

/-- The planet loop of `setup_inputs` (lines 51-79): per planet,
offshore entries, then plant-result entries, then minable-resource
entries, appended to the running list. -/
def planets_loop (allPlants : List Plant)
    (resource_cost farming_cost offshore_cost : ℚ) :
    List Planet → List InputSpec → Except SolverError (List InputSpec)
  | [], inputs => .ok inputs
  | planet :: rest, inputs =>
    match plants_loop allPlants farming_cost planet.resources.plants
        (inputs ++ planet.resources.offshore.map
          (fun k => ⟨k, "normal", false, offshore_cost⟩)) with
    | .ok inputs2 =>
        planets_loop allPlants resource_cost farming_cost offshore_cost rest
          (inputs2 ++ planet.resources.resource.map
            (fun k => ⟨k, "normal", true, resource_cost⟩))
    | .error e => .error e

/-- `setup_inputs` (lines 49-80), with the module-level dataset passed
explicitly. -/
def setup_inputs (resource_cost farming_cost offshore_cost : ℚ)
    (ds : GameDataset) : Except SolverError (List InputSpec) :=
  planets_loop ds.plants resource_cost farming_cost offshore_cost ds.planets []

/-- Result-item list of the first plant matching `key`, empty when no
plant matches (the loop never reads this default: it raises first). -/
def plantResultsOf (allPlants : List Plant) (key : String) : List PlantResult :=
  ((findPlant allPlants key).map Plant.results).getD []

/-- The entries `setup_inputs` emits for one planet: offshore entries,
then one entry per result item of each harvestable plant, then
minable-resource entries. -/
def planetInputs (allPlants : List Plant)
    (resource_cost farming_cost offshore_cost : ℚ) (planet : Planet) :
    List InputSpec :=
  planet.resources.offshore.map (fun k => ⟨k, "normal", false, offshore_cost⟩)
  ++ planet.resources.plants.flatMap
      (fun pk => (plantResultsOf allPlants pk).map
        (fun r => ⟨r.name, "normal", false, farming_cost⟩))
  ++ planet.resources.resource.map (fun k => ⟨k, "normal", true, resource_cost⟩)

/-- The full default enumeration: planet entries in dataset order. -/
def enumeratedInputs (resource_cost farming_cost offshore_cost : ℚ)
    (ds : GameDataset) : List InputSpec :=
  ds.planets.flatMap (planetInputs ds.plants resource_cost farming_cost offshore_cost)

theorem plants_loop_ok (allPlants : List Plant) (fc : ℚ) (pks : List String)
    (hfound : ∀ pk ∈ pks, (findPlant allPlants pk).isSome = true) :
    ∀ acc : List InputSpec,
      plants_loop allPlants fc pks acc =
        .ok (acc ++ pks.flatMap (fun pk => (plantResultsOf allPlants pk).map
          (fun r => ⟨r.name, "normal", false, fc⟩))) := by
  induction pks with
  | nil => intro acc; simp [plants_loop]
  | cons pk rest ih =>
    intro acc
    obtain ⟨pinfo, hp⟩ := Option.isSome_iff_exists.mp (hfound pk (by simp))
    simp only [plants_loop, hp]
    rw [ih (fun p hp' => hfound p (List.mem_cons_of_mem pk hp'))]
    simp [plantResultsOf, hp, List.append_assoc]

theorem planets_loop_ok (allPlants : List Plant) (rc fc oc : ℚ) (ps : List Planet)
    (hfound : ∀ planet ∈ ps, ∀ pk ∈ planet.resources.plants,
      (findPlant allPlants pk).isSome = true) :
    ∀ acc : List InputSpec,
      planets_loop allPlants rc fc oc ps acc =
        .ok (acc ++ ps.flatMap (planetInputs allPlants rc fc oc)) := by
  induction ps with
  | nil => intro acc; simp [planets_loop]
  | cons planet rest ih =>
    intro acc
    simp only [planets_loop,
      plants_loop_ok allPlants fc planet.resources.plants
        (fun pk hpk => hfound planet (by simp) pk hpk),
      ih (fun p hp pk hpk => hfound p (List.mem_cons_of_mem planet hp) pk hpk)]
    simp [planetInputs, List.append_assoc]

theorem setup_inputs_ok (rc fc oc : ℚ) (ds : GameDataset)
    (hfound : ∀ planet ∈ ds.planets, ∀ pk ∈ planet.resources.plants,
      (findPlant ds.plants pk).isSome = true) :
    setup_inputs rc fc oc ds = .ok (enumeratedInputs rc fc oc ds) := by
  rw [setup_inputs, planets_loop_ok ds.plants rc fc oc ds.planets hfound []]
  simp [enumeratedInputs]

/-- Per-planet entry count with duplicates preserved, as the code
emits them. -/
def planetInputCount (allPlants : List Plant) (planet : Planet) : Nat :=
  planet.resources.offshore.length
  + (planet.resources.plants.map (fun pk => (plantResultsOf allPlants pk).length)).sum
  + planet.resources.resource.length

theorem planetInputs_length (allPlants : List Plant) (rc fc oc : ℚ) (planet : Planet) :
    (planetInputs allPlants rc fc oc planet).length = planetInputCount allPlants planet := by
  simp [planetInputs, planetInputCount, Function.comp_def]
  omega

theorem enumeratedInputs_length (rc fc oc : ℚ) (ds : GameDataset) :
    (enumeratedInputs rc fc oc ds).length =
      (ds.planets.map (planetInputCount ds.plants)).sum := by
  simp [enumeratedInputs, Function.comp_def, planetInputs_length]

theorem enumeratedInputs_cost_mem (rc fc oc : ℚ) (ds : GameDataset) (e : InputSpec)
    (he : e ∈ enumeratedInputs rc fc oc ds) :
    e.quality = "normal" ∧
      ((e.resource = true ∧ e.cost = rc) ∨
       (e.resource = false ∧ (e.cost = oc ∨ e.cost = fc))) := by
  simp only [enumeratedInputs, List.mem_flatMap] at he
  obtain ⟨planet, _, he⟩ := he
  simp only [planetInputs, List.mem_append, List.mem_flatMap, List.mem_map] at he
  rcases he with (⟨k, _, rfl⟩ | ⟨pk, _, r, _, rfl⟩) | ⟨k, _, rfl⟩ <;> simp

/-- The argparse namespace of `main` (lines 129-159): every field the
configuration assembly reads. `Option` fields default to Python `None`
when the flag is absent. -/
structure Args where
  output_item : String
  output_amount : ℚ
  output_quality : String
  prod_module_tier : Int
  quality_module_tier : Int
  check_speed_modules : Bool
  speed_module_tier : Int
  module_quality : String
  prod_module_quality : Option String
  quality_module_quality : Option String
  speed_module_quality : Option String
  building_quality : String
  max_quality_unlocked : String
  input_items : Option (List String)
  input_quality : String
  input_resources : Option (List String)
  productivity_research : Option (List String)
  allow_byproducts : Bool
  allowed_recipes : Option (List String)
  disallowed_recipes : Option (List String)
  allowed_crafting_machines : Option (List String)
  disallowed_crafting_machines : Option (List String)
  resource_cost : ℚ
  farming_cost : ℚ
  offshore_cost : ℚ
  module_cost : ℚ
  building_cost : ℚ
deriving DecidableEq

/-- Python `x or y` on an optional string `x`: both `None` and the
empty string are falsy and fall through to `y`. -/
def pyOrStr (x : Option String) (y : String) : String :=
  match x with
  | some s => if s = "" then y else s
  | none => y

/-- Python `x if x else None` on an optional list: an empty list is
falsy and becomes `None`. -/
def pyListOrNone (x : Option (List String)) : Option (List String) :=
  match x with
  | some l => if l = [] then none else some l
  | none => none

/-- The manual branch of the input selection (lines 164-170): start
from an empty list, extend with parsed item inputs when
`--input-items` is present, then with parsed resource inputs when
`--input-resources` is present. -/
def manual_inputs (a : Args) : Except SolverError (List InputSpec) :=
  match a.input_items with
  | some its =>
    match parse_input_list its a.input_quality with
    | .ok item_inputs =>
      match a.input_resources with
      | some rs =>
        match parse_resources_list rs with
        | .ok resource_inputs => .ok (item_inputs ++ resource_inputs)
        | .error e => .error e
      | none => .ok item_inputs
    | .error e => .error e
  | none =>
    match a.input_resources with
    | some rs => parse_resources_list rs
    | none => .ok []

/-- The input-selection policy (lines 161-170): the default
enumeration exactly when both manual lists are `None` (`== None`, so a
present-but-empty list still selects the manual branch). -/
def assemble_inputs (ds : GameDataset) (a : Args) :
    Except SolverError (List InputSpec) :=
  if a.input_items = none ∧ a.input_resources = none then
    setup_inputs a.resource_cost a.farming_cost a.offshore_cost ds
  else manual_inputs a

/-- Line 172: `parse_productivity_research_list(args.productivity_research)
if args.productivity_research else {}` — both `None` and an empty
token list are falsy and yield the empty dict. -/
def researchOfArgs (a : Args) : Except SolverError ResearchDict :=
  match a.productivity_research with
  | some items => if items = [] then .ok [] else parse_productivity_research_list items
  | none => .ok []

/-- The assembled `config` dict (lines 174-200). -/
structure Configuration where
  quality_module_tier : Int
  quality_module_quality : String
  prod_module_tier : Int
  prod_module_quality : String
  check_speed_modules : Bool
  speed_module_tier : Int
  speed_module_quality : String
  building_quality : String
  max_quality_unlocked : String
  productivity_research : ResearchDict
  allow_byproducts : Bool
  module_cost : ℚ
  building_cost : ℚ
  allowed_recipes : Option (List String)
  disallowed_recipes : Option (List String)
  allowed_crafting_machines : Option (List String)
  disallowed_crafting_machines : Option (List String)
  inputs : List InputSpec
  outputs : List OutputSpec
deriving DecidableEq

/-- The configuration-derivation part of `main` (lines 161-200): the
input set is selected first, then the research map is expanded, then
the configuration dict is built; any exception aborts before a
configuration exists. -/
def main_config (ds : GameDataset) (a : Args) : Except SolverError Configuration :=
  match assemble_inputs ds a with
  | .error e => .error e
  | .ok inputs =>
    match researchOfArgs a with
    | .error e => .error e
    | .ok productivity_research =>
      .ok {
        quality_module_tier := a.quality_module_tier,
        quality_module_quality := pyOrStr a.quality_module_quality a.module_quality,
        prod_module_tier := a.prod_module_tier,
        prod_module_quality := pyOrStr a.prod_module_quality a.module_quality,
        check_speed_modules := a.check_speed_modules,
        speed_module_tier := a.speed_module_tier,
        speed_module_quality := pyOrStr a.speed_module_quality a.module_quality,
        building_quality := a.building_quality,
        max_quality_unlocked := a.max_quality_unlocked,
        productivity_research := productivity_research,
        allow_byproducts := a.allow_byproducts,
        module_cost := a.module_cost,
        building_cost := a.building_cost,
        allowed_recipes := pyListOrNone a.allowed_recipes,
        disallowed_recipes := pyListOrNone a.disallowed_recipes,
        allowed_crafting_machines := pyListOrNone a.allowed_crafting_machines,
        disallowed_crafting_machines := pyListOrNone a.disallowed_crafting_machines,
        inputs := inputs,
        outputs := [⟨a.output_item, a.output_quality, a.output_amount⟩]
      }

/-- The item part of the manual branch: the parsed item list when
`--input-items` is present, the empty list otherwise. -/
def manualItemPart (a : Args) : Except SolverError (List InputSpec) :=
  match a.input_items with
  | some its => parse_input_list its a.input_quality
  | none => .ok []

/-- The resource part of the manual branch: the parsed resource list
when `--input-resources` is present, the empty list otherwise. -/
def manualResourcePart (a : Args) : Except SolverError (List InputSpec) :=
  match a.input_resources with
  | some rs => parse_resources_list rs
  | none => .ok []

theorem manual_inputs_eq (a : Args) (li lr : List InputSpec)
    (hi : manualItemPart a = .ok li) (hr : manualResourcePart a = .ok lr) :
    manual_inputs a = .ok (li ++ lr) := by
  unfold manualItemPart at hi
  unfold manualResourcePart at hr
  cases hits : a.input_items with
  | none =>
    simp only [hits] at hi
    cases hi
    cases hrs : a.input_resources with
    | none =>
      simp only [hrs] at hr
      cases hr
      simp [manual_inputs, hits, hrs]
    | some rs =>
      simp only [hrs] at hr
      simp [manual_inputs, hits, hrs, hr]
  | some its =>
    simp only [hits] at hi
    cases hrs : a.input_resources with
    | none =>
      simp only [hrs] at hr
      cases hr
      simp [manual_inputs, hits, hrs, hi]
    | some rs =>
      simp only [hrs] at hr
      simp [manual_inputs, hits, hrs, hi, hr]

theorem main_config_ok_parts (ds : GameDataset) (a : Args) (c : Configuration)
    (h : main_config ds a = .ok c) :
    (∃ l, assemble_inputs ds a = .ok l) ∧ (∃ d, researchOfArgs a = .ok d) := by
  revert h
  unfold main_config
  cases hin : assemble_inputs ds a with
  | error e => simp
  | ok l =>
    cases hre : researchOfArgs a with
    | error e => simp
    | ok d =>
      intro _
      exact ⟨⟨l, rfl⟩, ⟨d, rfl⟩⟩

theorem main_config_ok_fields (ds : GameDataset) (a : Args) (c : Configuration)
    (h : main_config ds a = .ok c) :
    c.prod_module_quality = pyOrStr a.prod_module_quality a.module_quality ∧
    c.quality_module_quality = pyOrStr a.quality_module_quality a.module_quality ∧
    c.speed_module_quality = pyOrStr a.speed_module_quality a.module_quality ∧
    c.building_quality = a.building_quality ∧
    c.max_quality_unlocked = a.max_quality_unlocked := by
  revert h
  unfold main_config
  cases hin : assemble_inputs ds a with
  | error e => simp
  | ok l =>
    cases hre : researchOfArgs a with
    | error e => simp
    | ok d =>
      intro h
      cases h
      exact ⟨rfl, rfl, rfl, rfl, rfl⟩

theorem pyOrStr_some_ne (s y : String) (h : s ≠ "") : pyOrStr (some s) y = s := by
  simp [pyOrStr, h]

theorem pyOrStr_falsy (x : Option String) (y : String)
    (h : x = none ∨ x = some "") : pyOrStr x y = y := by
  rcases h with rfl | rfl <;> simp [pyOrStr]

-- Concrete data used by witnesses and counterexamples.

/-- The argparse defaults of `main` (lines 22-35 and 129-158). -/
def baseArgs : Args := {
  output_item := "electronic-circuit",
  output_amount := 1,
  output_quality := "legendary",
  prod_module_tier := 3,
  quality_module_tier := 3,
  check_speed_modules := false,
  speed_module_tier := 3,
  module_quality := "legendary",
  prod_module_quality := none,
  quality_module_quality := none,
  speed_module_quality := none,
  building_quality := "legendary",
  max_quality_unlocked := "legendary",
  input_items := none,
  input_quality := "normal",
  input_resources := none,
  productivity_research := none,
  allow_byproducts := false,
  allowed_recipes := none,
  disallowed_recipes := none,
  allowed_crafting_machines := none,
  disallowed_crafting_machines := none,
  resource_cost := 1,
  farming_cost := 1,
  offshore_cost := mkRat 1 10,
  module_cost := 1,
  building_cost := 1 }

/-- A dataset with no planets and no plants. -/
def emptyDataset : GameDataset := ⟨[], []⟩

/-- A dataset with a single planet carrying only offshore water. -/
def waterDataset : GameDataset := ⟨[⟨⟨["water"], [], []⟩⟩], []⟩

/-- A two-planet dataset: the first has offshore water, a harvestable
plant and two ores; the second repeats one ore key. -/
def demoDataset : GameDataset :=
  ⟨[⟨⟨["water"], ["tree"], ["iron-ore", "copper-ore"]⟩⟩,
    ⟨⟨[], [], ["iron-ore"]⟩⟩],
   [⟨"tree", [⟨"wood"⟩]⟩]⟩

/-- A dataset whose single plant yields the same result item twice. -/
def dupResultDataset : GameDataset :=
  ⟨[⟨⟨[], ["tree"], []⟩⟩], [⟨"tree", [⟨"wood"⟩, ⟨"wood"⟩]⟩]⟩

/-- Arguments with a manual item list whose parsed entry coincides by
value with the default enumeration of `waterDataset`. -/
def manualWaterArgs : Args := { baseArgs with input_items := some ["water=0.1"] }

/-- The water entry both branches produce for `waterDataset`. -/
def waterEntry : InputSpec := ⟨"water", "normal", false, mkRat 1 10⟩

/-- Claim C1, counterexample to the clause `no entry of the default
enumeration appears in it`: with a manual item list supplied, the
assembled input set is the parsed manual list alone, yet its single
entry is by value exactly the entry of the default enumeration, so an
entry of the default enumeration does appear in the result. -/
theorem input_selection_default_entry_cex :
    manualWaterArgs.input_items ≠ none ∧
    assemble_inputs waterDataset manualWaterArgs = .ok [waterEntry] ∧
    setup_inputs manualWaterArgs.resource_cost manualWaterArgs.farming_cost
      manualWaterArgs.offshore_cost waterDataset = .ok [waterEntry] := by
  refine ⟨by decide, by decide, by decide⟩

/-- Claim C1 (amended): if the caller supplies neither a manual
item-input list nor a manual resource-input list, the assembled input
set is exactly the default enumeration for the given cost parameters;
if the caller supplies either list, the input set is exactly the
concatenation of the manual lists supplied (a list not supplied
contributes nothing), built without reference to the default
enumeration — though an individual manual entry may coincide by value
with a default entry. -/
theorem input_selection_policy (ds : GameDataset) (a : Args) :
    (a.input_items = none ∧ a.input_resources = none →
      assemble_inputs ds a =
        setup_inputs a.resource_cost a.farming_cost a.offshore_cost ds) ∧
    ((a.input_items ≠ none ∨ a.input_resources ≠ none) →
      ∀ li lr, manualItemPart a = .ok li → manualResourcePart a = .ok lr →
        assemble_inputs ds a = .ok (li ++ lr)) := by
  constructor
  · intro h
    rw [assemble_inputs, if_pos h]
  · intro h li lr hi hr
    have hne : ¬(a.input_items = none ∧ a.input_resources = none) := by
      intro hc
      rcases h with h | h
      · exact h hc.1
      · exact h hc.2
    rw [assemble_inputs, if_neg hne, manual_inputs_eq a li lr hi hr]

/-- Arguments supplying both manual lists. -/
def manualBothArgs : Args := { baseArgs with
  input_items := some ["copper-plate=2.5"],
  input_resources := some ["iron-ore=1.0"] }

theorem input_selection_policy_witness :
    assemble_inputs emptyDataset manualBothArgs =
      .ok [⟨"copper-plate", "normal", false, mkRat 5 2⟩,
           ⟨"iron-ore", "normal", true, 1⟩] :=
  (input_selection_policy emptyDataset manualBothArgs).2 (Or.inl (by decide))
    [⟨"copper-plate", "normal", false, mkRat 5 2⟩]
    [⟨"iron-ore", "normal", true, 1⟩] (by decide) (by decide)

/-- Claim C2: for every dataset and non-negative cost parameters (and
whenever every referenced plant key resolves, which the code otherwise
aborts on), the enumeration emits, per planet in order: one entry per
offshore key (`normal`, non-resource, offshore cost), then one entry
per result item of each harvestable plant (`normal`, non-resource,
farming cost), then one entry per minable resource key (`normal`,
resource, resource cost); keys repeated across planets are not
merged. -/
theorem resource_enumerator_structure (rc fc oc : ℚ) (ds : GameDataset)
    (_hrc : 0 ≤ rc) (_hfc : 0 ≤ fc) (_hoc : 0 ≤ oc)
    (hfound : ∀ planet ∈ ds.planets, ∀ pk ∈ planet.resources.plants,
      (findPlant ds.plants pk).isSome = true) :
    setup_inputs rc fc oc ds =
      .ok (ds.planets.flatMap (fun planet =>
        planet.resources.offshore.map (fun k => ⟨k, "normal", false, oc⟩)
        ++ planet.resources.plants.flatMap
            (fun pk => (plantResultsOf ds.plants pk).map
              (fun r => ⟨r.name, "normal", false, fc⟩))
        ++ planet.resources.resource.map (fun k => ⟨k, "normal", true, rc⟩))) := by
  rw [setup_inputs_ok rc fc oc ds hfound]
  simp only [enumeratedInputs]
  congr 1

theorem resource_enumerator_structure_witness :
    setup_inputs 1 2 (mkRat 1 10) demoDataset =
      .ok [⟨"water", "normal", false, mkRat 1 10⟩,
           ⟨"wood", "normal", false, 2⟩,
           ⟨"iron-ore", "normal", true, 1⟩,
           ⟨"copper-ore", "normal", true, 1⟩,
           ⟨"iron-ore", "normal", true, 1⟩] := by
  rw [resource_enumerator_structure 1 2 (mkRat 1 10) demoDataset
    (by decide) (by decide) (by decide) (by decide)]
  decide

/-- Claim C3: the item variant parses each token with exactly one `=`
and a numeric cost piece into an entry with the caller-supplied
quality, `resource = false` and the parsed cost; it fails exactly when
some token is malformed, and on any manual-item parse failure no
configuration is produced at all. -/
theorem parse_input_list_spec (items : List String) (q : String) :
    ((∃ e, parse_input_list items q = .error e) ↔
      ∃ tok ∈ items, goodToken tok = false) ∧
    (∀ l, parse_input_list items q = .ok l →
      List.Forall₂ (itemTokenSpec q) items l) ∧
    (∀ (ds : GameDataset) (a : Args) (its : List String) (e : SolverError),
      a.input_items = some its →
      parse_input_list its a.input_quality = .error e →
      ∀ c, main_config ds a ≠ .ok c) := by
  refine ⟨?_, ?_, ?_⟩
  · rw [except_error_iff_not_ok, parse_input_list_ok_iff]
    simp [Bool.not_eq_true]
  · intro l h
    exact parse_input_list_ok_forall₂ items q l h
  · intro ds a its e hits herr c hc
    obtain ⟨⟨l, hl⟩, _⟩ := main_config_ok_parts ds a c hc
    rw [assemble_inputs, if_neg (by simp [hits])] at hl
    simp [manual_inputs, hits, herr] at hl

theorem parse_input_list_spec_witness :
    List.Forall₂ (itemTokenSpec "normal") ["copper-plate=2.5"]
      [⟨"copper-plate", "normal", false, mkRat 5 2⟩] :=
  (parse_input_list_spec ["copper-plate=2.5"] "normal").2.1
    [⟨"copper-plate", "normal", false, mkRat 5 2⟩] (by decide)

/-- Claim C4: a research token whose item key is missing from the
fixed table always prevents a productivity mapping from being
returned; when every earlier token processes cleanly the failure is
precisely the unknown-research-key error for that key; and a failing
research expansion prevents any configuration from being built. -/
theorem research_unknown_key_fail_fast :
    (∀ (items : List String) (tok k vs : String), tok ∈ items →
      pySplitOnEq tok = [k, vs] → researchLookup k = none →
      ∀ d, parse_productivity_research_list items ≠ .ok d) ∧
    (∀ (pre post : List String) (tok k vs : String),
      pySplitOnEq tok = [k, vs] → researchLookup k = none →
      (∀ t ∈ pre, researchTokenOk t = true) →
      parse_productivity_research_list (pre ++ tok :: post) =
        .error (.unknownResearchKey k)) ∧
    (∀ (ds : GameDataset) (a : Args) (items : List String) (e : SolverError),
      a.productivity_research = some items →
      parse_productivity_research_list items = .error e →
      ∀ c, main_config ds a ≠ .ok c) := by
  refine ⟨?_, ?_, ?_⟩
  · intro items tok k vs htok hsp hk d hok
    have := research_loop_ok_key_known items [] d hok tok htok k vs hsp
    rw [hk] at this
    simp at this
  · intro pre post tok k vs hsp hk hpre
    exact research_loop_unknown_key_aborts tok k vs hsp hk pre post [] hpre
  · intro ds a items e hpr herr c hc
    obtain ⟨_, ⟨d, hre⟩⟩ := main_config_ok_parts ds a c hc
    simp only [researchOfArgs, hpr] at hre
    by_cases hnil : items = []
    · subst hnil
      simp [parse_productivity_research_list, research_loop] at herr
    · rw [if_neg hnil, herr] at hre
      cases hre

theorem research_unknown_key_fail_fast_witness :
    parse_productivity_research_list ["unobtainium=0.3"] =
      .error (.unknownResearchKey "unobtainium") :=
  research_unknown_key_fail_fast.2.1 [] [] "unobtainium=0.3" "unobtainium" "0.3"
    (by decide) (by decide) (by simp)

/-- Claim C5: when the expansion succeeds, the level recorded for any
recipe key is the level of the last token in iteration order whose
matched recipe-key list contains it (so every recipe key of each
matched item receives the token's level, later tokens overwriting
earlier ones); in particular expanding `steel-plate=0.5` yields 0.5
for both `steel-plate` and `casting-steel`. -/
theorem research_expansion_levels :
    (∀ (items : List String) (d : ResearchDict),
      parse_productivity_research_list items = .ok d →
      ∀ r, dictLookup r d = researchLevelSpec items r) ∧
    parse_productivity_research_list ["steel-plate=0.5"] =
      .ok [("steel-plate", mkRat 1 2), ("casting-steel", mkRat 1 2)] := by
  constructor
  · intro items d h r
    have hl := research_loop_lookup items [] d h r
    simpa [researchLevelSpec, dictLookup] using hl
  · decide

theorem research_expansion_levels_witness :
    dictLookup "casting-steel"
        [("steel-plate", mkRat 1 2), ("casting-steel", mkRat 1 2)] =
      researchLevelSpec ["steel-plate=0.5"] "casting-steel" :=
  research_expansion_levels.1 ["steel-plate=0.5"]
    [("steel-plate", mkRat 1 2), ("casting-steel", mkRat 1 2)] (by decide)
    "casting-steel"

/-- Arguments providing an empty-string class-specific override. -/
def emptyOverrideArgs : Args := { baseArgs with
  module_quality := "rare",
  quality_module_quality := some "" }

/-- Claim C6, counterexample: the caller provides the class-specific
override `""` for the quality-module class, yet the resolved quality
is the shared default `"rare"`, not the provided override — Python
`or` treats the empty string as falsy. -/
theorem override_empty_string_cex :
    emptyOverrideArgs.quality_module_quality = some "" ∧
    Except.map Configuration.quality_module_quality
      (main_config emptyDataset emptyOverrideArgs) = .ok "rare" ∧
    ("rare" : String) ≠ "" := by
  refine ⟨by decide, by decide, by decide⟩

/-- Claim C6 (amended): per module class, independently, the resolved
quality is the class-specific override whenever the caller provided a
non-empty one, and the shared module-quality default when the override
is absent or the empty string (Python `or` treats `""` as falsy);
building quality and max-quality-unlocked are passed through with no
override chaining. -/
theorem module_quality_override_chain (ds : GameDataset) (a : Args)
    (c : Configuration) (h : main_config ds a = .ok c) :
    ((∀ s, a.prod_module_quality = some s → s ≠ "" → c.prod_module_quality = s) ∧
     (a.prod_module_quality = none ∨ a.prod_module_quality = some "" →
        c.prod_module_quality = a.module_quality)) ∧
    ((∀ s, a.quality_module_quality = some s → s ≠ "" → c.quality_module_quality = s) ∧
     (a.quality_module_quality = none ∨ a.quality_module_quality = some "" →
        c.quality_module_quality = a.module_quality)) ∧
    ((∀ s, a.speed_module_quality = some s → s ≠ "" → c.speed_module_quality = s) ∧
     (a.speed_module_quality = none ∨ a.speed_module_quality = some "" →
        c.speed_module_quality = a.module_quality)) ∧
    c.building_quality = a.building_quality ∧
    c.max_quality_unlocked = a.max_quality_unlocked := by
  obtain ⟨hp, hq, hsq, hb, hm⟩ := main_config_ok_fields ds a c h
  refine ⟨⟨?_, ?_⟩, ⟨?_, ?_⟩, ⟨?_, ?_⟩, hb, hm⟩
  · intro s hv hne
    rw [hp, hv, pyOrStr_some_ne s _ hne]
  · intro hf
    rw [hp, pyOrStr_falsy _ _ hf]
  · intro s hv hne
    rw [hq, hv, pyOrStr_some_ne s _ hne]
  · intro hf
    rw [hq, pyOrStr_falsy _ _ hf]
  · intro s hv hne
    rw [hsq, hv, pyOrStr_some_ne s _ hne]
  · intro hf
    rw [hsq, pyOrStr_falsy _ _ hf]

/-- Arguments with shared default `"rare"` and a non-empty
quality-module override `"epic"`. -/
def overrideArgs : Args := { baseArgs with
  module_quality := "rare",
  quality_module_quality := some "epic" }

/-- The configuration `main_config` assembles for `overrideArgs` on
the empty dataset. -/
def overrideConfig : Configuration := {
  quality_module_tier := 3,
  quality_module_quality := "epic",
  prod_module_tier := 3,
  prod_module_quality := "rare",
  check_speed_modules := false,
  speed_module_tier := 3,
  speed_module_quality := "rare",
  building_quality := "legendary",
  max_quality_unlocked := "legendary",
  productivity_research := [],
  allow_byproducts := false,
  module_cost := 1,
  building_cost := 1,
  allowed_recipes := none,
  disallowed_recipes := none,
  allowed_crafting_machines := none,
  disallowed_crafting_machines := none,
  inputs := [],
  outputs := [⟨"electronic-circuit", "legendary", 1⟩] }

theorem module_quality_override_chain_witness :
    overrideConfig.quality_module_quality = "epic" ∧
    overrideConfig.prod_module_quality = "rare" := by
  have h := module_quality_override_chain emptyDataset overrideArgs
    overrideConfig (by decide)
  exact ⟨h.2.1.1 "epic" rfl (by decide), h.1.2 (Or.inl rfl)⟩

/-- Count the claim asserts per planet for plant results: the number
of distinct harvested result items. Modelled from the claim's words
(`distinct plant-result count`) to compare against the code. -/
def planetDistinctResultCount (allPlants : List Plant) (planet : Planet) : Nat :=
  ((planet.resources.plants.flatMap
      (fun pk => (plantResultsOf allPlants pk).map PlantResult.name)).dedup).length

/-- The output length claim C7 asserts: summed over planets,
offshore-key count + distinct plant-result count + resource-key
count. -/
def claimedEnumLength (ds : GameDataset) : Nat :=
  (ds.planets.map (fun planet =>
    planet.resources.offshore.length + planetDistinctResultCount ds.plants planet
      + planet.resources.resource.length)).sum

/-- Claim C7, counterexample to the `distinct` count: a planet whose
single harvestable plant yields the same result item twice produces
two entries (duplicates are preserved), while the claimed formula with
a distinct count gives one. -/
theorem enum_length_distinct_cex :
    Except.map List.length (setup_inputs 1 1 1 dupResultDataset) = .ok 2 ∧
    claimedEnumLength dupResultDataset = 1 ∧ (2 : Nat) ≠ 1 := by
  refine ⟨by decide, by decide, by decide⟩

/-- Claim C7 (amended): for non-negative cost parameters (and whenever
every referenced plant key resolves), the enumeration's length equals,
summed over planets, offshore-key count + plant-result count with
duplicates preserved + resource-key count; and the emitted entries
are exactly, per planet, the offshore entries carrying the offshore
cost, then the plant-result entries carrying the farming cost, then
the minable entries carrying the resource cost — so every entry has
quality `normal` and its cost equals the parameter of precisely its
own category. -/
theorem enum_length_and_costs (rc fc oc : ℚ) (ds : GameDataset)
    (_hrc : 0 ≤ rc) (_hfc : 0 ≤ fc) (_hoc : 0 ≤ oc)
    (hfound : ∀ planet ∈ ds.planets, ∀ pk ∈ planet.resources.plants,
      (findPlant ds.plants pk).isSome = true) :
    Except.map List.length (setup_inputs rc fc oc ds) =
      .ok ((ds.planets.map (planetInputCount ds.plants)).sum) ∧
    (∀ l, setup_inputs rc fc oc ds = .ok l →
      l = ds.planets.flatMap (fun planet =>
        planet.resources.offshore.map (fun k => ⟨k, "normal", false, oc⟩)
        ++ planet.resources.plants.flatMap
            (fun pk => (plantResultsOf ds.plants pk).map
              (fun r => ⟨r.name, "normal", false, fc⟩))
        ++ planet.resources.resource.map (fun k => ⟨k, "normal", true, rc⟩))) := by
  have hok := setup_inputs_ok rc fc oc ds hfound
  constructor
  · rw [hok]
    simp [Except.map, enumeratedInputs_length]
  · intro l hl
    rw [hok] at hl
    cases hl
    simp only [enumeratedInputs]
    congr 1

theorem enum_length_and_costs_witness :
    Except.map List.length (setup_inputs 1 2 (mkRat 1 10) demoDataset) =
      .ok 5 ∧
    [(⟨"water", "normal", false, mkRat 1 10⟩ : InputSpec),
     ⟨"wood", "normal", false, 2⟩,
     ⟨"iron-ore", "normal", true, 1⟩,
     ⟨"copper-ore", "normal", true, 1⟩,
     ⟨"iron-ore", "normal", true, 1⟩] =
      demoDataset.planets.flatMap (fun planet =>
        planet.resources.offshore.map (fun k => ⟨k, "normal", false, mkRat 1 10⟩)
        ++ planet.resources.plants.flatMap
            (fun pk => (plantResultsOf demoDataset.plants pk).map
              (fun r => ⟨r.name, "normal", false, 2⟩))
        ++ planet.resources.resource.map (fun k => ⟨k, "normal", true, 1⟩)) := by
  have h := enum_length_and_costs 1 2 (mkRat 1 10) demoDataset
    (by decide) (by decide) (by decide) (by decide)
  exact ⟨by rw [h.1]; decide, h.2 _ (by decide)⟩

/-- Claim C8: the resource variant succeeds and fails on exactly the
same tokens as the item variant, but every produced entry has quality
`normal` and `resource = true` regardless of the caller-supplied input
quality; in particular `iron-ore=1.0` parses to the normal-quality
resource entry with cost 1. -/
theorem parse_resources_list_spec (items : List String) :
    ((∃ e, parse_resources_list items = .error e) ↔
      ∃ tok ∈ items, goodToken tok = false) ∧
    (∀ q : String, (∃ l, parse_resources_list items = .ok l) ↔
      ∃ l, parse_input_list items q = .ok l) ∧
    (∀ l, parse_resources_list items = .ok l →
      List.Forall₂ resourceTokenSpec items l) ∧
    parse_resources_list ["iron-ore=1.0"] =
      .ok [⟨"iron-ore", "normal", true, 1⟩] := by
  refine ⟨?_, ?_, ?_, by decide⟩
  · rw [except_error_iff_not_ok, parse_resources_list_ok_iff]
    simp [Bool.not_eq_true]
  · intro q
    rw [parse_resources_list_ok_iff, parse_input_list_ok_iff]
  · intro l h
    exact parse_resources_list_ok_forall₂ items l h

theorem parse_resources_list_spec_witness :
    List.Forall₂ resourceTokenSpec ["iron-ore=1.0"]
      [⟨"iron-ore", "normal", true, 1⟩] :=
  (parse_resources_list_spec ["iron-ore=1.0"]).2.2.1
    [⟨"iron-ore", "normal", true, 1⟩] (by decide)

/-- Arguments supplying a present-but-empty manual item list. -/
def emptyItemsArgs : Args := { baseArgs with input_items := some [] }

/-- Claim C9: a present-but-empty manual list still selects the manual
branch: the default enumeration is discarded and the assembled input
set is the (possibly empty) concatenation of the supplied manual
lists; supplying only an empty item list yields an empty input set. -/
theorem empty_manual_list_still_manual (ds : GameDataset) (a : Args) :
    ((a.input_items = some [] ∨ a.input_resources = some []) →
      assemble_inputs ds a = manual_inputs a) ∧
    (∀ li lr, (a.input_items = some [] ∨ a.input_resources = some []) →
      manualItemPart a = .ok li → manualResourcePart a = .ok lr →
      assemble_inputs ds a = .ok (li ++ lr)) ∧
    (a.input_items = some [] → a.input_resources = none →
      assemble_inputs ds a = .ok []) := by
  refine ⟨?_, ?_, ?_⟩
  · intro h
    have hne : ¬(a.input_items = none ∧ a.input_resources = none) := by
      intro hc
      rcases h with h | h
      · rw [hc.1] at h
        cases h
      · rw [hc.2] at h
        cases h
    rw [assemble_inputs, if_neg hne]
  · intro li lr h hi hr
    have hne : ¬(a.input_items = none ∧ a.input_resources = none) := by
      intro hc
      rcases h with h | h
      · rw [hc.1] at h
        cases h
      · rw [hc.2] at h
        cases h
    rw [assemble_inputs, if_neg hne, manual_inputs_eq a li lr hi hr]
  · intro h1 h2
    rw [assemble_inputs, if_neg (by simp [h1])]
    have hm := manual_inputs_eq a [] []
      (by simp [manualItemPart, h1, parse_input_list])
      (by simp [manualResourcePart, h2])
    simpa using hm

theorem empty_manual_list_still_manual_witness :
    assemble_inputs waterDataset emptyItemsArgs = .ok [] :=
  (empty_manual_list_still_manual waterDataset emptyItemsArgs).2.2 rfl rfl

/-- Arguments with repeated manual item keys plus a resource list. -/
def dupTokenArgs : Args := { baseArgs with
  input_items := some ["iron-ore=2", "iron-ore=2"],
  input_resources := some ["iron-ore=1.0"] }

/-- Claim C10: when both manual lists are supplied, the assembled
input set is all item-variant entries (in token order) followed by all
resource-variant entries (in token order), each token contributing its
own entry even for repeated keys. -/
theorem manual_inputs_order (ds : GameDataset) (a : Args) (its rs : List String)
    (li lr : List InputSpec)
    (hits : a.input_items = some its) (hrs : a.input_resources = some rs)
    (hli : parse_input_list its a.input_quality = .ok li)
    (hlr : parse_resources_list rs = .ok lr) :
    assemble_inputs ds a = .ok (li ++ lr) ∧
    List.Forall₂ (itemTokenSpec a.input_quality) its li ∧
    List.Forall₂ resourceTokenSpec rs lr := by
  refine ⟨?_, parse_input_list_ok_forall₂ its a.input_quality li hli,
    parse_resources_list_ok_forall₂ rs lr hlr⟩
  rw [assemble_inputs, if_neg (by simp [hits])]
  simp [manual_inputs, hits, hrs, hli, hlr]

theorem manual_inputs_order_witness :
    assemble_inputs emptyDataset dupTokenArgs =
      .ok [⟨"iron-ore", "normal", false, 2⟩, ⟨"iron-ore", "normal", false, 2⟩,
           ⟨"iron-ore", "normal", true, 1⟩] :=
  (manual_inputs_order emptyDataset dupTokenArgs
    ["iron-ore=2", "iron-ore=2"] ["iron-ore=1.0"]
    [⟨"iron-ore", "normal", false, 2⟩, ⟨"iron-ore", "normal", false, 2⟩]
    [⟨"iron-ore", "normal", true, 1⟩]
    (by decide) (by decide) (by decide) (by decide)).1
